import Mathlib

/-!
Verification of the mailbox queue (caf::detail::thread_safe_queue), the legacy
wildcard sentinel (cppa::any_type), and the spec-level proxy-registry and
publish/connect contracts of this actor framework.

The queue source is an intrusive doubly-linked list with a value-less dummy
head node; its abstract state is the list of stored values from head to tail.
Each Lean operation below mirrors one member function and is annotated with
the source lines it embeds.
-/

namespace caf

/-- One mailbox-queue operation, used to state trace properties. -/
inductive Op (α : Type) where
  | append (v : α)
  | prepend (v : α)
  | takeHead
  | takeTail
deriving DecidableEq, Repr

/-- thread_safe_queue::append (lines 108-122). A new node carrying the value is
linked after the current tail, so the value goes to the back of the list. The
consumer is notified exactly when NotifyConsumer holds and the loaded tail
equals the dummy head, i.e. the queue was empty before the insertion. The
returned Bool records whether cv_.notify_one() was called. -/
def append {α : Type} (notifyConsumer : Bool) (v : α) (q : List α) :
    List α × Bool :=
  (q ++ [v], notifyConsumer && q.isEmpty)

/-- thread_safe_queue::internal_append (lines 124-129): append with the
NotifyConsumer template argument fixed to false. -/
def internal_append {α : Type} (v : α) (q : List α) : List α × Bool :=
  append false v q

/-- thread_safe_queue::prepend (lines 131-163). The new node is linked directly
behind the dummy head, hence in front of every stored value. The source
branches on head->next: when it is non-null (queue non-empty) no notification
happens; in the empty branch tail_ is updated and the consumer is notified
when NotifyConsumer holds. -/
def prepend {α : Type} (notifyConsumer : Bool) (v : α) (q : List α) :
    List α × Bool :=
  match q with
  | [] => ([v], notifyConsumer)
  | x :: xs => (v :: x :: xs, false)

/-- thread_safe_queue::internal_prepend (lines 165-169): prepend with the
NotifyConsumer template argument fixed to false. -/
def internal_prepend {α : Type} (v : α) (q : List α) : List α × Bool :=
  prepend false v q

/-- thread_safe_queue::try_take_head_impl (lines 216-238), with the predicate
already evaluated on the queue state. When the predicate holds the queue is
treated as empty and nothing is removed; otherwise the node after the dummy
head is unlinked and its value returned. The branch returning (none, q) for an
empty list with a false predicate mirrors the CAF_ASSERT(next != nullptr)
territory, unreachable for the predicates the source instantiates. -/
def try_take_head_impl {α : Type} (q : List α) (pred : List α → Bool) :
    Option α × List α :=
  if pred q then (none, q)
  else
    match q with
    | [] => (none, q)
    | x :: xs => (some x, xs)

/-- thread_safe_queue::try_take_head() non-blocking (lines 171-177):
try_take_head_impl with the predicate that head->next is null, i.e. that the
list of values is empty. -/
def try_take_head {α : Type} (q : List α) : Option α × List α :=
  try_take_head_impl q List.isEmpty

/-- Behavior of std::condition_variable wait_for with a predicate under the
assumption of no concurrent activity: the predicate value cannot change during
the wait, so when it holds on entry the call returns true after zero elapsed
time, and otherwise the full relative timeout elapses and the call returns the
final predicate value, which is still false. The second component is the
elapsed waiting time. -/
def wait_for (relTime : Nat) (pred : Bool) : Bool × Nat :=
  if pred then (true, 0) else (false, relTime)

/-- thread_safe_queue::try_take_head(Duration) (lines 179-186) in the
no-concurrent-inserts setting, instrumented with the elapsed wait time. The
source instantiates try_take_head_impl with the predicate
cv_.wait_for(guard, rel_time, ptr == nullptr), so the condition variable waits
for the queue to be EMPTY and the impl treats a true result as emptiness. -/
def try_take_head_timed {α : Type} (q : List α) (relTime : Nat) :
    Option α × List α × Nat :=
  let pr := wait_for relTime q.isEmpty
  if pr.1 then (none, q, pr.2)
  else
    match q with
    | [] => (none, q, pr.2)
    | x :: xs => (some x, xs, pr.2)

/-- thread_safe_queue::try_take_tail (lines 188-207). When the loaded tail node
is the dummy head the queue is empty and nothing happens; otherwise the tail
node is unlinked (prev->next = nullptr, tail_ = prev) and its value returned.
On the value list this removes and returns the last element. -/
def try_take_tail {α : Type} (q : List α) : Option α × List α :=
  match q.getLast? with
  | none => (none, q)
  | some x => (some x, q.dropLast)

/-- thread_safe_queue::empty (lines 209-213): head_ == tail_ exactly when no
value node is linked in. -/
def emptyq {α : Type} (q : List α) : Bool :=
  q.isEmpty

/-- Instrumented queue state for trace reasoning: the live value list, the
values returned by take operations in call order, and the insertion history. -/
structure QState (α : Type) where
  queue : List α
  taken : List α
  inserted : List α
deriving DecidableEq, Repr

/-- Effect of one operation on the instrumented state, each branch delegating
to the corresponding member-function embedding above (public append and
prepend, i.e. NotifyConsumer = true). -/
def stepOp {α : Type} (s : QState α) : Op α → QState α
  | .append v => ⟨(append true v s.queue).1, s.taken, s.inserted ++ [v]⟩
  | .prepend v => ⟨(prepend true v s.queue).1, s.taken, s.inserted ++ [v]⟩
  | .takeHead =>
      ⟨(try_take_head s.queue).2, s.taken ++ (try_take_head s.queue).1.toList,
        s.inserted⟩
  | .takeTail =>
      ⟨(try_take_tail s.queue).2, s.taken ++ (try_take_tail s.queue).1.toList,
        s.inserted⟩

/-- Run a trace of operations from a given state. -/
def runFrom {α : Type} (s : QState α) (ops : List (Op α)) : QState α :=
  ops.foldl stepOp s

/-- The state of a freshly constructed queue (lines 93-97): only the dummy
node, so no values. -/
def initState {α : Type} : QState α :=
  ⟨[], [], []⟩

/-- Run a trace of operations on a freshly constructed queue. -/
def run {α : Type} (ops : List (Op α)) : QState α :=
  runFrom initState ops

/-- Dequeue order of everything that passed through the queue: the values
already taken, in the order they were returned, followed by the values still
queued, front first. takeHead moves the front of the second block to the back
of the first, so this sequence is invariant under takeHead. -/
def outSeq {α : Type} (s : QState α) : List α :=
  s.taken ++ s.queue

end caf

-- ---------------------------------------------------------------------------
-- Legacy wildcard sentinel, src/cppa/any_type.hpp
-- ---------------------------------------------------------------------------

namespace cppa

/-- cppa::any_type (src/cppa/any_type.hpp, lines 6-10): a stateless sentinel
type. -/
inductive any_type where
  | mk
deriving DecidableEq, Repr

/-- The constant any_val (line 29). -/
def any_val : any_type :=
  any_type.mk

/-- operator==(const any_type&, const any_type&) (line 12). -/
def eq_any_any : any_type → any_type → Bool :=
  fun _ _ => true

/-- template operator==(const T&, const any_type&) (lines 14-15). -/
def eq_T_any {T : Type} : T → any_type → Bool :=
  fun _ _ => true

/-- template operator==(const any_type&, const T&) (lines 17-18). -/
def eq_any_T {T : Type} : any_type → T → Bool :=
  fun _ _ => true

/-- operator!=(const any_type&, const any_type&) (line 20). -/
def ne_any_any : any_type → any_type → Bool :=
  fun _ _ => false

/-- template operator!=(const T&, const any_type&) (lines 22-23). -/
def ne_T_any {T : Type} : T → any_type → Bool :=
  fun _ _ => false

/-- template operator!=(const any_type&, const T&) (lines 25-26). -/
def ne_any_T {T : Type} : any_type → T → Bool :=
  fun _ _ => false

end cppa

-- ---------------------------------------------------------------------------
-- Proxy registry and publish/connect, modelled from the spec
-- ---------------------------------------------------------------------------

namespace caf_net

/-- Modelled from the spec: ActorAddress = (NodeId, ActorId) (spec section 3);
equality of the pair defines identity. The registry implementation is not under
src, only its UDP identity test is. -/
structure ActorAddress where
  node : Nat
  actorId : Nat
deriving DecidableEq, Repr

/-- Modelled from the spec: the Proxy Registry of one local system maps remote
actor addresses to proxy objects (spec section 4.2). Proxies are identified by
the value of the creation counter at creation time, so two equal proxy
identifiers denote the identical object (reference identity). -/
structure ProxyRegistry where
  entries : List (ActorAddress × Nat)
  nextId : Nat
deriving DecidableEq, Repr

/-- Lookup of an address in the entry list, first match wins. -/
def lookupEntries : List (ActorAddress × Nat) → ActorAddress → Option Nat
  | [], _ => none
  | e :: es, a => if e.1 = a then some e.2 else lookupEntries es a

/-- Lookup of an address in a registry. -/
def lookup (r : ProxyRegistry) (a : ActorAddress) : Option Nat :=
  lookupEntries r.entries a

/-- Modelled from the spec: get_or_create(address) returns the existing entry
when one exists and otherwise creates and inserts exactly one, both under the
single registry lock, so the check-then-insert sequence is one atomic step
(spec section 4.2). -/
def get_or_create (r : ProxyRegistry) (a : ActorAddress) :
    Nat × ProxyRegistry :=
  match lookup r a with
  | some p => (p, r)
  | none => (r.nextId, ⟨r.entries ++ [(a, r.nextId)], r.nextId + 1⟩)

/-- Modelled from the spec: connect(host, port) performs the handshake, learns
the remote ActorAddress bound to that endpoint, and resolves it through the
Proxy Registry via get_or_create (spec section 4.3). The resolve argument is
the handshake oracle mapping (host, port) to the remote address. -/
def connect (resolve : Nat × Nat → ActorAddress) (r : ProxyRegistry)
    (hp : Nat × Nat) : Nat × ProxyRegistry :=
  get_or_create r (resolve hp)

/-- Modelled from the spec: the set of endpoints of one middleman, as a list of
(assigned port, published actor) pairs (spec section 4.3). -/
structure Middleman where
  endpoints : List (Nat × Nat)
deriving DecidableEq, Repr

/-- The ports currently bound on this middleman. -/
def boundPorts (m : Middleman) : List Nat :=
  m.endpoints.map Prod.fst

/-- Modelled from the spec: the OS-assigned ephemeral port for a publish with
requested port 0, guaranteed unused; realized as one past the maximum bound
port. -/
def freshPort (m : Middleman) : Nat :=
  (boundPorts m).foldr max 0 + 1

/-- Failure kind of publish (spec section 7). -/
inductive PubError where
  | portInUse
deriving DecidableEq, Repr

/-- Modelled from the spec: publish binds a new listening endpoint; requesting
port 0 yields an OS-assigned ephemeral port, an explicit port that is already
bound fails with PortInUse, and every successful call adds an independent
endpoint (spec section 4.3). -/
def publish (m : Middleman) (a : Nat) (requestedPort : Nat) :
    Except PubError (Nat × Middleman) :=
  let p := if requestedPort = 0 then freshPort m else requestedPort
  if p ∈ boundPorts m then Except.error PubError.portInUse
  else Except.ok (p, ⟨m.endpoints ++ [(p, a)]⟩)

/-- Port lookup in the endpoint list, first match wins. -/
def lookupPort : List (Nat × Nat) → Nat → Option Nat
  | [], _ => none
  | e :: es, p => if e.1 = p then some e.2 else lookupPort es p

/-- Modelled from the spec: remote_actor/connect on a port resolves to the
actor published on that endpoint (spec section 4.3). -/
def remote_actor (m : Middleman) (port : Nat) : Option Nat :=
  lookupPort m.endpoints port

end caf_net

-- ---------------------------------------------------------------------------
-- Queue lemmas
-- ---------------------------------------------------------------------------

namespace caf

lemma append_fst {α : Type} (nc : Bool) (v : α) (q : List α) :
    (append nc v q).1 = q ++ [v] := rfl

lemma prepend_fst {α : Type} (nc : Bool) (v : α) (q : List α) :
    (prepend nc v q).1 = v :: q := by
  cases q <;> rfl

lemma try_take_tail_concat {α : Type} (q : List α) (v : α) :
    try_take_tail (q ++ [v]) = (some v, q) := by
  simp [try_take_tail]

lemma runFrom_cons {α : Type} (s : QState α) (op : Op α) (ops : List (Op α)) :
    runFrom s (op :: ops) = runFrom (stepOp s op) ops := rfl

lemma runFrom_append {α : Type} (s : QState α) (l₁ l₂ : List (Op α)) :
    runFrom s (l₁ ++ l₂) = runFrom (runFrom s l₁) l₂ := by
  simp [runFrom, List.foldl_append]

lemma outSeq_step_append {α : Type} (s : QState α) (v : α) :
    outSeq (stepOp s (Op.append v)) = outSeq s ++ [v] := by
  simp [outSeq, stepOp, append, List.append_assoc]

lemma outSeq_step_prepend {α : Type} (s : QState α) (v : α) :
    outSeq (stepOp s (Op.prepend v)) = s.taken ++ v :: s.queue := by
  simp [outSeq, stepOp, prepend_fst]

lemma outSeq_step_takeHead {α : Type} (s : QState α) :
    outSeq (stepOp s Op.takeHead) = outSeq s := by
  rcases s with ⟨q, tk, ins⟩
  cases q <;> simp [outSeq, stepOp, try_take_head, try_take_head_impl]

/-- Without takeTail, everything that passed through the queue keeps its place
in the dequeue order: sublists of the dequeue order are preserved by running
any further trace. -/
lemma outSeq_sublist_runFrom {α : Type} (ops : List (Op α))
    (hnt : Op.takeTail ∉ ops) (s : QState α) (l : List α)
    (hl : List.Sublist l (outSeq s)) :
    List.Sublist l (outSeq (runFrom s ops)) := by
  induction ops generalizing s with
  | nil => exact hl
  | cons op rest ih =>
    have hop : op ≠ Op.takeTail := fun h => hnt (by simp [h])
    have hrest : Op.takeTail ∉ rest := fun h => hnt (by simp [h])
    rw [runFrom_cons]
    refine ih hrest (stepOp s op) ?_
    cases op with
    | append v => rw [outSeq_step_append]; exact hl.trans (List.sublist_append_left _ _)
    | prepend v =>
      rw [outSeq_step_prepend]
      exact hl.trans ((List.sublist_cons_self v s.queue).append_left s.taken)
    | takeHead => rw [outSeq_step_takeHead]; exact hl
    | takeTail => exact absurd rfl hop

lemma mem_outSeq_runFrom {α : Type} (ops : List (Op α))
    (hnt : Op.takeTail ∉ ops) (s : QState α) (v : α)
    (hv : v ∈ outSeq s) : v ∈ outSeq (runFrom s ops) :=
  List.singleton_sublist.mp
    (outSeq_sublist_runFrom ops hnt s [v] (List.singleton_sublist.mpr hv))

/-- One step preserves the conservation invariant: the insertion history is a
permutation of the taken values and the queued values together. -/
lemma conservation_step {α : Type} (s : QState α) (op : Op α)
    (h : s.inserted.Perm (s.taken ++ s.queue)) :
    (stepOp s op).inserted.Perm ((stepOp s op).taken ++ (stepOp s op).queue) := by
  cases op with
  | append v =>
    simp only [stepOp, append_fst]
    exact (h.append_right [v]).trans (by rw [List.append_assoc])
  | prepend v =>
    simp only [stepOp, prepend_fst]
    refine (h.append_right [v]).trans ?_
    rw [List.append_assoc]
    exact List.Perm.append_left s.taken (List.perm_append_singleton v s.queue)
  | takeHead =>
    rcases s with ⟨q, tk, ins⟩
    cases q with
    | nil => simpa [stepOp, try_take_head, try_take_head_impl] using h
    | cons x xs =>
      simp only [stepOp, try_take_head, try_take_head_impl] at h ⊢
      simpa [List.append_assoc] using h
  | takeTail =>
    rcases s with ⟨q, tk, ins⟩
    rcases List.eq_nil_or_concat q with hq | ⟨L, b, hq⟩
    · subst hq
      simpa [stepOp, try_take_tail] using h
    · rw [List.concat_eq_append] at hq
      subst hq
      simp only [stepOp, try_take_tail_concat, Option.toList] at h ⊢
      refine h.trans ?_
      simp only [List.append_assoc]
      exact List.Perm.append_left tk (List.perm_append_singleton b L)

lemma conservation_runFrom {α : Type} (ops : List (Op α)) (s : QState α)
    (h : s.inserted.Perm (s.taken ++ s.queue)) :
    (runFrom s ops).inserted.Perm
      ((runFrom s ops).taken ++ (runFrom s ops).queue) := by
  induction ops generalizing s with
  | nil => exact h
  | cons op rest ih => exact ih (stepOp s op) (conservation_step s op h)

end caf

namespace caf_net

lemma lookupEntries_append_of_none (l₁ l₂ : List (ActorAddress × Nat))
    (a : ActorAddress) (h : lookupEntries l₁ a = none) :
    lookupEntries (l₁ ++ l₂) a = lookupEntries l₂ a := by
  induction l₁ with
  | nil => rfl
  | cons e es ih =>
    by_cases he : e.1 = a
    · simp [lookupEntries, he] at h
    · rw [List.cons_append]
      show (if e.1 = a then some e.2 else lookupEntries (es ++ l₂) a)
          = lookupEntries l₂ a
      rw [if_neg he]
      refine ih ?_
      have h2 : (if e.1 = a then some e.2 else lookupEntries es a) = none := h
      rwa [if_neg he] at h2

lemma not_mem_keys_of_lookup_none (l : List (ActorAddress × Nat))
    (a : ActorAddress) (h : lookupEntries l a = none) :
    a ∉ l.map Prod.fst := by
  induction l with
  | nil => simp
  | cons e es ih =>
    by_cases he : e.1 = a
    · simp [lookupEntries, he] at h
    · have h2 : (if e.1 = a then some e.2 else lookupEntries es a) = none := h
      rw [if_neg he] at h2
      simp only [List.map_cons, List.mem_cons]
      rintro (rfl | hmem)
      · exact he rfl
      · exact ih h2 hmem

/-- Calling get_or_create twice for the same address returns the identical
proxy identifier. -/
lemma get_or_create_idem (r : ProxyRegistry) (a : ActorAddress) :
    (get_or_create (get_or_create r a).2 a).1 = (get_or_create r a).1 := by
  rcases h : lookup r a with _ | p
  · have h2 : lookup (⟨r.entries ++ [(a, r.nextId)], r.nextId + 1⟩ : ProxyRegistry) a
        = some r.nextId := by
      unfold lookup at h ⊢
      rw [lookupEntries_append_of_none r.entries _ a h]
      simp [lookupEntries]
    simp [get_or_create, h, h2]
  · simp [get_or_create, h]

lemma mem_le_foldr_max (l : List Nat) (x : Nat) (hx : x ∈ l) :
    x ≤ l.foldr max 0 := by
  induction l with
  | nil => cases hx
  | cons y ys ih =>
    rcases List.mem_cons.mp hx with rfl | hmem
    · exact le_max_left _ _
    · exact le_trans (ih hmem) (le_max_right _ _)

lemma freshPort_not_mem (m : Middleman) : freshPort m ∉ boundPorts m := by
  intro h
  have := mem_le_foldr_max (boundPorts m) (freshPort m) h
  simp only [freshPort] at this
  omega

lemma publish_ok (m m₂ : Middleman) (a rp p : Nat)
    (h : publish m a rp = Except.ok (p, m₂)) :
    p ∉ boundPorts m ∧ m₂.endpoints = m.endpoints ++ [(p, a)] := by
  unfold publish at h
  by_cases hb : (if rp = 0 then freshPort m else rp) ∈ boundPorts m
  · simp [hb] at h
  · simp only [hb, if_false] at h
    rcases h with ⟨rfl, rfl⟩
    exact ⟨hb, rfl⟩

lemma lookupPort_append_of_not_mem (l₁ l₂ : List (Nat × Nat)) (p : Nat)
    (h : p ∉ l₁.map Prod.fst) :
    lookupPort (l₁ ++ l₂) p = lookupPort l₂ p := by
  induction l₁ with
  | nil => rfl
  | cons e es ih =>
    simp only [List.map_cons, List.mem_cons] at h
    push_neg at h
    rw [List.cons_append]
    show (if e.1 = p then some e.2 else lookupPort (es ++ l₂) p) = lookupPort l₂ p
    rw [if_neg (Ne.symm h.1)]
    exact ih h.2

end caf_net

-- ---------------------------------------------------------------------------
-- Claim theorems
-- ---------------------------------------------------------------------------

/-- C1: the blocking try_take_head(timeout) on an empty queue with no
concurrent inserts. The claim says it returns no value only after the timeout
elapses. The code instead passes the inverted predicate (queue empty) to the
condition-variable wait, so on the empty queue the predicate already holds,
the wait returns immediately, and the call yields no value after ZERO elapsed
time even though the requested timeout is 100 time units. -/
theorem try_take_head_timed_empty_returns_immediately :
    caf.try_take_head_timed ([] : List Nat) 100 = (none, [], 0) ∧ (0 : Nat) < 100 := by
  constructor
  · rfl
  · decide

/-- C7: the public append and prepend notify the (single, notify_one) blocked
consumer exactly when the queue was empty immediately before the insertion. -/
theorem notify_iff_was_empty (v : Nat) (q : List Nat) :
    ((caf.append true v q).2 = true ↔ q = [])
      ∧ ((caf.prepend true v q).2 = true ↔ q = []) := by
  constructor
  · cases q <;> simp [caf.append]
  · cases q <;> simp [caf.prepend]

/-- C9: internal_append and internal_prepend produce exactly the queue state of
append and prepend and never signal a consumer. -/
theorem internal_variants_same_state (v : Nat) (q : List Nat) :
    (caf.internal_append v q).1 = (caf.append true v q).1
      ∧ (caf.internal_append v q).2 = false
      ∧ (caf.internal_prepend v q).1 = (caf.prepend true v q).1
      ∧ (caf.internal_prepend v q).2 = false := by
  refine ⟨rfl, rfl, ?_, ?_⟩
  · cases q <;> rfl
  · cases q <;> rfl

/-- C10: on the empty queue the non-blocking try_take_head and try_take_tail
both return no value and leave the queue unchanged, so any later trace of
operations behaves exactly as if the failed take had not happened. -/
theorem failed_take_on_empty_is_noop :
    caf.try_take_head ([] : List Nat) = (none, [])
      ∧ caf.try_take_tail ([] : List Nat) = (none, [])
      ∧ (∀ ops : List (caf.Op Nat),
          caf.runFrom ⟨(caf.try_take_head ([] : List Nat)).2, [], []⟩ ops
            = caf.runFrom caf.initState ops)
      ∧ (∀ ops : List (caf.Op Nat),
          caf.runFrom ⟨(caf.try_take_tail ([] : List Nat)).2, [], []⟩ ops
            = caf.runFrom caf.initState ops) := by
  refine ⟨rfl, rfl, fun ops => rfl, fun ops => rfl⟩

/-- C6 counterexample: after append 1 then prepend 2 the queue holds [2, 1] and
the most recently inserted item is 2, yet try_take_tail removes and returns 1,
the item at the tail end, not the most recent insertion. -/
theorem take_tail_not_most_recent_cex :
    (caf.run [caf.Op.append 1, caf.Op.prepend 2]).queue = [2, 1]
      ∧ (caf.run [caf.Op.append 1, caf.Op.prepend 2]).inserted.getLast? = some 2
      ∧ (caf.try_take_tail (caf.run [caf.Op.append 1, caf.Op.prepend 2]).queue).1
          = some 1
      ∧ (1 : Nat) ≠ 2 := by
  refine ⟨rfl, rfl, rfl, by decide⟩

/-- C6 amended: try_take_tail removes and returns the item at the tail end of
the queue, i.e. the last item in dequeue order (the most recently appended one;
a prepend inserts at the head end, so the removed item is not necessarily the
most recent insertion overall), and it leaves the remaining items and their
relative order exactly unchanged; on the empty queue it removes nothing. -/
theorem take_tail_removes_back (q : List Nat) (v : Nat) :
    caf.try_take_tail (q ++ [v]) = (some v, q)
      ∧ caf.try_take_tail ([] : List Nat) = (none, []) :=
  ⟨caf.try_take_tail_concat q v, rfl⟩

/-- C8: the wildcard sentinel any_type compares equal to every value of every
type through its overloaded operators: all equality overloads return true on
any_val and all inequality overloads return false. -/
theorem any_type_universal_equality (T : Type) (x : T) :
    cppa.eq_T_any x cppa.any_val = true
      ∧ cppa.eq_any_T cppa.any_val x = true
      ∧ cppa.eq_any_any cppa.any_val cppa.any_val = true
      ∧ cppa.ne_T_any x cppa.any_val = false
      ∧ cppa.ne_any_T cppa.any_val x = false
      ∧ cppa.ne_any_any cppa.any_val cppa.any_val = false :=
  ⟨rfl, rfl, rfl, rfl, rfl, rfl⟩

/-- C2: within one local system at most one proxy exists per ActorAddress
(registry keys stay duplicate-free), get_or_create returns the existing entry
when one exists and otherwise creates and inserts exactly one, and repeated
get_or_create or connect calls resolving to the same address return the
identical proxy (same identity, not merely equal addresses). -/
theorem proxy_registry_identity (r : caf_net.ProxyRegistry)
    (a : caf_net.ActorAddress)
    (hinv : (r.entries.map Prod.fst).Nodup) :
    ((caf_net.get_or_create r a).2.entries.map Prod.fst).Nodup
    ∧ (∀ p, caf_net.lookup r a = some p → caf_net.get_or_create r a = (p, r))
    ∧ (caf_net.lookup r a = none →
        (caf_net.get_or_create r a).1 = r.nextId
        ∧ (caf_net.get_or_create r a).2.entries = r.entries ++ [(a, r.nextId)])
    ∧ (caf_net.get_or_create (caf_net.get_or_create r a).2 a).1
        = (caf_net.get_or_create r a).1
    ∧ (∀ (resolve : Nat × Nat → caf_net.ActorAddress) (hp : Nat × Nat),
        (caf_net.connect resolve (caf_net.connect resolve r hp).2 hp).1
          = (caf_net.connect resolve r hp).1) := by
  refine ⟨?_, ?_, ?_, caf_net.get_or_create_idem r a,
    fun resolve hp => caf_net.get_or_create_idem r (resolve hp)⟩
  · rcases h : caf_net.lookup r a with _ | p
    · simp only [caf_net.get_or_create, h]
      rw [List.map_append]
      refine List.Nodup.append hinv (List.nodup_singleton _) ?_
      intro x hx hxa
      simp only [List.map_cons, List.map_nil, List.mem_singleton] at hxa
      subst hxa
      exact caf_net.not_mem_keys_of_lookup_none r.entries _ h hx
    · simpa [caf_net.get_or_create, h] using hinv
  · intro p hp
    simp [caf_net.get_or_create, hp]
  · intro h
    simp [caf_net.get_or_create, h]

/-- C2 witness: on the empty registry, two get_or_create calls for the address
(1, 2) return the identical proxy. -/
theorem proxy_registry_identity_witness :
    (caf_net.get_or_create
        (caf_net.get_or_create (⟨[], 0⟩ : caf_net.ProxyRegistry) ⟨1, 2⟩).2
        ⟨1, 2⟩).1
      = (caf_net.get_or_create (⟨[], 0⟩ : caf_net.ProxyRegistry) ⟨1, 2⟩).1 :=
  (proxy_registry_identity ⟨[], 0⟩ ⟨1, 2⟩ (by simp)).2.2.2.1

/-- C4: for every sequence of append, prepend, try_take_head and try_take_tail
operations, the multiset of items returned by take operations plus the multiset
of items still queued equals the multiset of items inserted: nothing is lost
and nothing is duplicated. -/
theorem mailbox_no_loss_no_duplication (ops : List (caf.Op Nat)) :
    ((caf.run ops).inserted : Multiset Nat)
      = ((caf.run ops).taken : Multiset Nat)
          + ((caf.run ops).queue : Multiset Nat) := by
  have h := caf.conservation_runFrom ops caf.initState (List.Perm.refl [])
  rw [Multiset.coe_add]
  exact Multiset.coe_eq_coe.mpr h

/-- C3: try_take_head always removes the item at the head, the oldest position
of the dequeue order; for traces of append, prepend and try_take_head with
pairwise distinct items, two appended items occur in the dequeue order in
insertion order (FIFO), and a prepended item occurs in the dequeue order ahead
of every item that was appended earlier and is still queued at the moment of
the prepend (control-before-regular two-priority scheme). -/
theorem mailbox_priority_order (ops : List (caf.Op Nat))
    (hnt : caf.Op.takeTail ∉ ops)
    (hdistinct : (caf.run ops).inserted.Nodup) :
    (∀ (x : Nat) (xs tk ins : List Nat),
        caf.stepOp ⟨x :: xs, tk, ins⟩ caf.Op.takeHead = ⟨xs, tk ++ [x], ins⟩)
    ∧ (∀ (vi vj : Nat) (l1 l2 l3 : List (caf.Op Nat)),
        ops = l1 ++ caf.Op.append vi :: l2 ++ caf.Op.append vj :: l3 →
        List.Sublist [vi, vj] (caf.outSeq (caf.run ops)))
    ∧ (∀ (vj : Nat) (l1 l2 : List (caf.Op Nat)),
        ops = l1 ++ caf.Op.prepend vj :: l2 →
        ∀ vi, vi ∈ (caf.run l1).queue →
          List.Sublist [vj, vi] (caf.outSeq (caf.run ops))) := by
  refine ⟨fun x xs tk ins => rfl, ?_, ?_⟩
  · intro vi vj l1 l2 l3 heq
    subst heq
    have hnt2 : caf.Op.takeTail ∉ l2 := fun h => hnt (by simp [h])
    have hnt3 : caf.Op.takeTail ∉ l3 := fun h => hnt (by simp [h])
    have hrun : caf.run (l1 ++ caf.Op.append vi :: l2 ++ caf.Op.append vj :: l3)
        = caf.runFrom
            (caf.stepOp
              (caf.runFrom (caf.stepOp (caf.run l1) (caf.Op.append vi)) l2)
              (caf.Op.append vj)) l3 := by
      simp [caf.run, caf.runFrom, List.foldl_append]
    rw [hrun]
    refine caf.outSeq_sublist_runFrom l3 hnt3 _ _ ?_
    rw [caf.outSeq_step_append]
    have hvi : vi ∈ caf.outSeq
        (caf.runFrom (caf.stepOp (caf.run l1) (caf.Op.append vi)) l2) := by
      refine caf.mem_outSeq_runFrom l2 hnt2 _ vi ?_
      rw [caf.outSeq_step_append]
      simp
    exact List.Sublist.append (List.singleton_sublist.mpr hvi)
      (List.Sublist.refl [vj])
  · intro vj l1 l2 heq vi hvi
    subst heq
    have hnt2 : caf.Op.takeTail ∉ l2 := fun h => hnt (by simp [h])
    have hrun : caf.run (l1 ++ caf.Op.prepend vj :: l2)
        = caf.runFrom (caf.stepOp (caf.run l1) (caf.Op.prepend vj)) l2 := by
      simp [caf.run, caf.runFrom, List.foldl_append]
    rw [hrun]
    refine caf.outSeq_sublist_runFrom l2 hnt2 _ _ ?_
    rw [caf.outSeq_step_prepend]
    refine List.Sublist.trans ?_
      (List.sublist_append_right (caf.run l1).taken _)
    exact List.Sublist.cons₂ vj (List.singleton_sublist.mpr hvi)

/-- C3 witness: in the trace append 1, append 2, prepend 3 the dequeue order
has 1 before 2 (FIFO among appends) and 3 before 1 (the prepended item ahead of
the earlier appended one). -/
theorem mailbox_priority_order_witness :
    List.Sublist [1, 2]
        (caf.outSeq (caf.run [caf.Op.append 1, caf.Op.append 2, caf.Op.prepend 3]))
    ∧ List.Sublist [3, 1]
        (caf.outSeq (caf.run [caf.Op.append 1, caf.Op.append 2, caf.Op.prepend 3])) := by
  have h := mailbox_priority_order
    [caf.Op.append 1, caf.Op.append 2, caf.Op.prepend 3] (by decide) (by decide)
  exact ⟨h.2.1 1 2 [] [] [caf.Op.prepend 3] rfl,
    h.2.2 3 [caf.Op.append 1, caf.Op.append 2] [] rfl 1 (by decide)⟩

/-- C5: two publish calls that both succeed bind distinct assigned ports, each
resulting endpoint resolves to the actor it published (so publishing the same
actor twice yields two ports that both resolve to that actor), and a publish
with requested port 0 always succeeds with an OS-assigned port. -/
theorem publish_independent_endpoints (m m1 m2 : caf_net.Middleman)
    (a1 a2 rp1 rp2 p1 p2 : Nat)
    (h1 : caf_net.publish m a1 rp1 = Except.ok (p1, m1))
    (h2 : caf_net.publish m1 a2 rp2 = Except.ok (p2, m2)) :
    p1 ≠ p2
    ∧ caf_net.remote_actor m2 p1 = some a1
    ∧ caf_net.remote_actor m2 p2 = some a2
    ∧ (∀ (m3 : caf_net.Middleman) (a3 : Nat),
        ∃ q m4, caf_net.publish m3 a3 0 = Except.ok (q, m4)) := by
  obtain ⟨hp1, he1⟩ := caf_net.publish_ok m m1 a1 rp1 p1 h1
  obtain ⟨hp2, he2⟩ := caf_net.publish_ok m1 m2 a2 rp2 p2 h2
  have hp1m1 : p1 ∈ caf_net.boundPorts m1 := by
    simp [caf_net.boundPorts, he1]
  have hne : p1 ≠ p2 := fun h => hp2 (h ▸ hp1m1)
  refine ⟨hne, ?_, ?_, ?_⟩
  · unfold caf_net.remote_actor
    rw [he2, he1, List.append_assoc,
      caf_net.lookupPort_append_of_not_mem m.endpoints _ p1 hp1]
    simp [caf_net.lookupPort]
  · unfold caf_net.remote_actor
    rw [he2, caf_net.lookupPort_append_of_not_mem m1.endpoints _ p2 hp2]
    simp [caf_net.lookupPort]
  · intro m3 a3
    refine ⟨caf_net.freshPort m3,
      ⟨m3.endpoints ++ [(caf_net.freshPort m3, a3)]⟩, ?_⟩
    simp [caf_net.publish, caf_net.freshPort_not_mem m3]

/-- C5 witness: publishing actor 5 twice with requested port 0 on the empty
middleman assigns ports 1 and 2, which differ, and both resolve to actor 5. -/
theorem publish_independent_endpoints_witness :
    (1 : Nat) ≠ 2
    ∧ caf_net.remote_actor ⟨[(1, 5), (2, 5)]⟩ 1 = some 5
    ∧ caf_net.remote_actor ⟨[(1, 5), (2, 5)]⟩ 2 = some 5
    ∧ (∀ (m3 : caf_net.Middleman) (a3 : Nat),
        ∃ q m4, caf_net.publish m3 a3 0 = Except.ok (q, m4)) :=
  publish_independent_endpoints ⟨[]⟩ ⟨[(1, 5)]⟩ ⟨[(1, 5), (2, 5)]⟩ 5 5 0 0 1 2
    rfl rfl
